import Mathlib

/-!
Verification of the Chebyshev-SOR Jacobi notebook (`Jacobi.ipynb`).

The notebook solves `P x = q` with three stationary iterations: plain Jacobi,
constant-factor SOR Jacobi, and Chebyshev-SOR Jacobi.  Vectors are modelled as
`Fin n → ℝ` and matrices as `Matrix (Fin n) (Fin n) ℝ`; the `torch` float
arithmetic is modelled by real arithmetic.  The fresh standard-normal vector
each `forward` call draws is modelled as an explicit parameter (`x0`, or a
stream `draws : ℕ → Vec n` for the plotting loops), since the value of a
pseudo-random draw is not part of the algorithm.
-/

namespace Chebyshev

open Matrix

abbrev Vec (n : ℕ) := Fin n → ℝ

abbrev Mat (n : ℕ) := Matrix (Fin n) (Fin n) ℝ

/-- `c_root(k, a, b, T)` from the notebook:
`(a + b)/2.0 + ((b - a)/2.0) * math.cos(math.pi * (2*k+1)/(2*T))`. -/
noncomputable def c_root (k : ℕ) (a b : ℝ) (T : ℕ) : ℝ :=
  (a + b) / 2 + ((b - a) / 2) * Real.cos (Real.pi * (2 * (k : ℝ) + 1) / (2 * (T : ℝ)))

/-- The Chebyshev relaxation factor computed inline in
`Chebychev_SOR_Jacobi.forward`: `gamma = 1.0/c_root(i % T, lmin, lmax, T)`. -/
noncomputable def chebyshevStepSchedule (i T : ℕ) (lmin lmax : ℝ) : ℝ :=
  1 / c_root (i % T) lmin lmax T

/-- Error raised when the diagonal part of `P` is singular (the notebook's
`torch.inverse(D)` raises a runtime error on a singular input). -/
inductive SplitError where
  | SingularDiagonalError
deriving DecidableEq

open Classical

/-- The decomposition performed in `Jacobi.__init__` (and identically in the
other two classes): `D = torch.diag_embed(torch.diagonal(P))`, `R = P - D`,
`Dinv = torch.inverse(D)`.  `torch.inverse` raises on a singular input, which
is modelled by the `Except` error branch guarded by `det D ≠ 0`. -/
noncomputable def matrixSplitter {n : ℕ} (P : Mat n) : Except SplitError (Mat n × Mat n) :=
  let D : Mat n := Matrix.diagonal (fun i => P i i)
  if D.det ≠ 0 then Except.ok (D⁻¹, P - D) else Except.error SplitError.SingularDiagonalError

/-- `Jacobi.forward(num_itr)`: starting from the fresh draw `x0`, repeat
`x = Dinv @ (b - R @ x)` for `num_itr` steps. -/
noncomputable def Jacobi.forward {n : ℕ} (Dinv R : Mat n) (b : Vec n) (x0 : Vec n) : ℕ → Vec n
  | 0 => x0
  | k + 1 =>
      let x := Jacobi.forward Dinv R b x0 k
      Dinv.mulVec (b - R.mulVec x)

/-- `SOR_Jacobi.forward(num_itr)`: repeat `tmp = Dinv @ (b - R @ x)`;
`x = x + omega*(tmp - x)`. -/
noncomputable def SOR_Jacobi.forward {n : ℕ} (Dinv R : Mat n) (b : Vec n) (omega : ℝ)
    (x0 : Vec n) : ℕ → Vec n
  | 0 => x0
  | k + 1 =>
      let x := SOR_Jacobi.forward Dinv R b omega x0 k
      let tmp := Dinv.mulVec (b - R.mulVec x)
      x + omega • (tmp - x)

/-- `Chebychev_SOR_Jacobi.forward(num_itr, T)`: repeat `tmp = Dinv @ (b - R @ x)`;
`gamma = 1.0/c_root(i % T, lmin, lmax, T)`; `x = x + gamma * (tmp - x)`,
where `i` is the zero-based index of the step. -/
noncomputable def Chebychev_SOR_Jacobi.forward {n : ℕ} (Dinv R : Mat n) (b : Vec n)
    (lmin lmax : ℝ) (T : ℕ) (x0 : Vec n) : ℕ → Vec n
  | 0 => x0
  | k + 1 =>
      let x := Chebychev_SOR_Jacobi.forward Dinv R b lmin lmax T x0 k
      let tmp := Dinv.mulVec (b - R.mulVec x)
      let gamma := 1 / c_root (k % T) lmin lmax T
      x + gamma • (tmp - x)

/-- `omega_opt = 2.0/(lmax+lmin)` from `plot_sor_jacobi`. -/
noncomputable def omega_opt (lmin lmax : ℝ) : ℝ := 2 / (lmax + lmin)

/-- `torch.norm` of a vector: the Euclidean norm `√(Σ vᵢ²)`. -/
noncomputable def torch_norm {n : ℕ} (v : Vec n) : ℝ := Real.sqrt (∑ i, v i ^ 2)

/-- `plot_pure_jacobi`: builds `norm_list` by calling `jacobi(i)` for each
`i in range(max_itr)` and appending `torch.norm(r)`.  Each call `jacobi(i)`
draws a fresh standard-normal initial iterate, modelled by `draws i`. -/
noncomputable def plot_pure_jacobi {n : ℕ} (Dinv R : Mat n) (q : Vec n)
    (draws : ℕ → Vec n) (max_itr : ℕ) : List ℝ :=
  (List.range max_itr).map fun i => torch_norm (Jacobi.forward Dinv R q (draws i) i)

/-! ## Spec-side definitions (for refinement claims)

These follow the wording of the specification, to be compared with the
definitions above, which are translated from the notebook. -/

/-- The relaxation strategies of spec §4.4. -/
inductive RelaxationStrategy where
  | none : RelaxationStrategy
  | constant (omega : ℝ) : RelaxationStrategy
  | chebyshev (T : ℕ) (lmin lmax : ℝ) : RelaxationStrategy

/-- Spec §4.4 per-step update at step index `i`: first `tmp = D⁻¹·(q − R·x)`,
then the selected relaxation: None gives `tmp`; Constant ω gives
`x + ω·(tmp − x)`; Chebyshev gives `x + γ·(tmp − x)` with
`γ = ChebyshevStepSchedule(i, T, lmin, lmax)`. -/
noncomputable def spec_stationaryStep {n : ℕ} (Dinv R : Mat n) (q : Vec n) :
    RelaxationStrategy → ℕ → Vec n → Vec n
  | RelaxationStrategy.none, _, x => Dinv.mulVec (q - R.mulVec x)
  | RelaxationStrategy.constant omega, _, x =>
      let tmp := Dinv.mulVec (q - R.mulVec x)
      x + omega • (tmp - x)
  | RelaxationStrategy.chebyshev T lmin lmax, i, x =>
      let tmp := Dinv.mulVec (q - R.mulVec x)
      x + chebyshevStepSchedule i T lmin lmax • (tmp - x)

/-- Spec §4.4 run: from a fresh iterate `x0`, apply `spec_stationaryStep` for
step indices `0, 1, …, k−1`. -/
noncomputable def spec_stationaryRun {n : ℕ} (Dinv R : Mat n) (q : Vec n)
    (s : RelaxationStrategy) (x0 : Vec n) : ℕ → Vec n
  | 0 => x0
  | k + 1 => spec_stationaryStep Dinv R q s k (spec_stationaryRun Dinv R q s x0 k)

/-- `c(j)` as written in spec §4.2:
`(λ_min+λ_max)/2 + ((λ_max−λ_min)/2)·cos(π·(2j+1)/(2T))`. -/
noncomputable def spec_c (j T : ℕ) (lmin lmax : ℝ) : ℝ :=
  (lmin + lmax) / 2 + ((lmax - lmin) / 2) * Real.cos (Real.pi * (2 * (j : ℝ) + 1) / (2 * (T : ℝ)))

/-- The StationaryIterator of a run as a step relation (spec §4.4 state
machine): `RunsFrom Dinv R q s i x k y` holds when starting at step index `i`
with iterate `x` and taking `k` steps ends with iterate `y`. -/
inductive RunsFrom {n : ℕ} (Dinv R : Mat n) (q : Vec n) (s : RelaxationStrategy) :
    ℕ → Vec n → ℕ → Vec n → Prop where
  | done (i : ℕ) (x : Vec n) : RunsFrom Dinv R q s i x 0 x
  | step (i : ℕ) (x : Vec n) (k : ℕ) (y : Vec n) :
      RunsFrom Dinv R q s (i + 1) (spec_stationaryStep Dinv R q s i x) k y →
      RunsFrom Dinv R q s i x (k + 1) y

/-! ## Helper lemmas -/

/-- When every diagonal entry of `P` is non-zero, the guard in
`matrixSplitter` succeeds and the decomposition is returned. -/
lemma matrixSplitter_eq_ok {n : ℕ} (P : Mat n) (hP : ∀ i, P i i ≠ 0) :
    matrixSplitter P =
      Except.ok ((Matrix.diagonal fun i => P i i)⁻¹, P - Matrix.diagonal fun i => P i i) := by
  have hdet : (Matrix.diagonal fun i => P i i).det ≠ 0 := by
    rw [Matrix.det_diagonal]
    exact Finset.prod_ne_zero_iff.mpr fun i _ => hP i
  simp only [matrixSplitter]
  rw [if_pos hdet]

/-- For a diagonal `P`, the residual `R = P − D` is the zero matrix. -/
lemma residual_eq_zero_of_diagonal {n : ℕ} (P : Mat n)
    (hdiag : ∀ i j, i ≠ j → P i j = 0) :
    P - Matrix.diagonal (fun i => P i i) = 0 := by
  ext i j
  by_cases hij : i = j
  · subst hij
    simp
  · simp [Matrix.sub_apply, Matrix.diagonal_apply_ne _ hij, hdiag i j hij]

/-! ## Claims -/

/-- C1: every step of each of the three forward loops first computes
`tmp = D⁻¹·(q − R·x)` and then applies the selected relaxation: with strategy
None the next iterate is `tmp`; with Constant ω it is `x + ω·(tmp − x)`; with
Chebyshev it is `x + γ·(tmp − x)` where `γ = ChebyshevStepSchedule(i, T, lmin,
lmax)` at step index `i` — i.e. each source class refines the spec's
StationaryIterator with the corresponding strategy. -/
theorem forward_refines_stationaryIterator {n : ℕ} (Dinv R : Mat n) (b : Vec n)
    (omega lmin lmax : ℝ) (T : ℕ) (x0 : Vec n) (k : ℕ) :
    Jacobi.forward Dinv R b x0 k =
      spec_stationaryRun Dinv R b RelaxationStrategy.none x0 k ∧
    SOR_Jacobi.forward Dinv R b omega x0 k =
      spec_stationaryRun Dinv R b (RelaxationStrategy.constant omega) x0 k ∧
    Chebychev_SOR_Jacobi.forward Dinv R b lmin lmax T x0 k =
      spec_stationaryRun Dinv R b (RelaxationStrategy.chebyshev T lmin lmax) x0 k := by
  induction k with
  | zero => exact ⟨rfl, rfl, rfl⟩
  | succ k ih =>
    refine ⟨?_, ?_, ?_⟩
    · simp only [Jacobi.forward, spec_stationaryRun, ih.1]
      rfl
    · simp only [SOR_Jacobi.forward, spec_stationaryRun, ih.2.1]
      rfl
    · simp only [Chebychev_SOR_Jacobi.forward, spec_stationaryRun, ih.2.2]
      rfl

/-- C2: the Chebyshev relaxation factor at index `k` is `1 / c(k mod T)` with
`c` exactly the spec's formula, and the schedule is periodic with period `T`. -/
theorem chebyshevStepSchedule_spec_and_periodic (k T : ℕ) (lmin lmax : ℝ)
    (hT : 0 < T) (hmin : 0 < lmin) (hle : lmin ≤ lmax) :
    chebyshevStepSchedule k T lmin lmax = 1 / spec_c (k % T) T lmin lmax ∧
    chebyshevStepSchedule k T lmin lmax = chebyshevStepSchedule (k % T) T lmin lmax := by
  constructor
  · rfl
  · unfold chebyshevStepSchedule
    rw [Nat.mod_mod_of_dvd k dvd_rfl]

/-- Witness for C2 at `k = 9`, `T = 4`, bounds `(1, 3)`. -/
theorem chebyshevStepSchedule_spec_and_periodic_witness :
    chebyshevStepSchedule 9 4 1 3 = 1 / spec_c (9 % 4) 4 1 3 ∧
    chebyshevStepSchedule 9 4 1 3 = chebyshevStepSchedule (9 % 4) 4 1 3 :=
  chebyshevStepSchedule_spec_and_periodic 9 4 1 3 (by norm_num) (by norm_num) (by norm_num)

/-- C5: for bounds with `λ_min + λ_max > 0`, the constant SOR factor computed
by `plot_sor_jacobi` is `ω_opt = 2/(λ_min + λ_max)`. -/
theorem omega_opt_eq (lmin lmax : ℝ) (h : 0 < lmin + lmax) :
    omega_opt lmin lmax = 2 / (lmin + lmax) := by
  unfold omega_opt
  rw [add_comm]

/-- Witness for C5 at the notebook's bounds `(0.6766, 1.9216)`. -/
theorem omega_opt_eq_witness :
    omega_opt 0.6766 1.9216 = 2 / (0.6766 + 1.9216) :=
  omega_opt_eq 0.6766 1.9216 (by norm_num)

/-- C3: for `P` with all diagonal entries non-zero, `matrixSplitter` succeeds,
returning the diagonal matrix with entries `1/P[i][i]` and `R` equal to `P`
with its diagonal zeroed, and `D + R = P` exactly. -/
theorem matrixSplitter_nonsingular {n : ℕ} (P : Mat n) (hP : ∀ i, P i i ≠ 0) :
    ∃ Dinv R, matrixSplitter P = Except.ok (Dinv, R) ∧
      Dinv = Matrix.diagonal (fun i => 1 / P i i) ∧
      (∀ i, R i i = 0) ∧
      (∀ i j, i ≠ j → R i j = P i j) ∧
      Matrix.diagonal (fun i => P i i) + R = P := by
  refine ⟨(Matrix.diagonal fun i => P i i)⁻¹, P - Matrix.diagonal fun i => P i i,
    matrixSplitter_eq_ok P hP, ?_, ?_, ?_, ?_⟩
  · refine Matrix.inv_eq_right_inv ?_
    rw [Matrix.diagonal_mul_diagonal]
    have : (fun i => P i i * (1 / P i i)) = fun _ => (1 : ℝ) := by
      funext i
      rw [one_div, mul_inv_cancel₀ (hP i)]
    rw [this, Matrix.diagonal_one]
  · intro i
    simp [Matrix.sub_apply, Matrix.diagonal_apply_eq]
  · intro i j hij
    simp [Matrix.sub_apply, Matrix.diagonal_apply_ne _ hij]
  · abel

/-- Witness for C3 at `P = [[2,0],[0,4]]`. -/
theorem matrixSplitter_nonsingular_witness :
    ∃ Dinv R, matrixSplitter (!![2, 0; 0, 4] : Mat 2) = Except.ok (Dinv, R) ∧
      Dinv = Matrix.diagonal (fun i => 1 / (!![2, 0; 0, 4] : Mat 2) i i) ∧
      (∀ i, R i i = 0) ∧
      (∀ i j, i ≠ j → R i j = (!![2, 0; 0, 4] : Mat 2) i j) ∧
      Matrix.diagonal (fun i => (!![2, 0; 0, 4] : Mat 2) i i) + R = !![2, 0; 0, 4] :=
  matrixSplitter_nonsingular !![2, 0; 0, 4] (by intro i; fin_cases i <;> norm_num)

/-- C6: if any diagonal entry of `P` is zero, the decomposition fails with
`SingularDiagonalError` instead of producing a matrix with infinite entries. -/
theorem matrixSplitter_singular {n : ℕ} (P : Mat n) (i : Fin n) (hi : P i i = 0) :
    matrixSplitter P = Except.error SplitError.SingularDiagonalError := by
  have hdet : (Matrix.diagonal fun j => P j j).det = 0 := by
    rw [Matrix.det_diagonal]
    exact Finset.prod_eq_zero (Finset.mem_univ i) hi
  simp only [matrixSplitter]
  rw [if_neg (not_not_intro hdet)]

/-- Witness for C6 at `P = [[1,0],[0,0]]`, whose second diagonal entry is 0. -/
theorem matrixSplitter_singular_witness :
    matrixSplitter (!![1, 0; 0, 0] : Mat 2) = Except.error SplitError.SingularDiagonalError :=
  matrixSplitter_singular !![1, 0; 0, 0] 1 (by norm_num)

/-- C8: for a diagonal `P` with non-zero diagonal and `q = 0`, pure Jacobi
reaches the zero vector after one step from any starting iterate and the
iterate is zero at every iteration count `k ≥ 1`. -/
theorem pure_jacobi_diagonal_fixed_point {n : ℕ} (P : Mat n)
    (hdiag : ∀ i j, i ≠ j → P i j = 0) (hnz : ∀ i, P i i ≠ 0)
    (x0 : Vec n) (k : ℕ) (hk : 1 ≤ k) :
    ∃ Dinv R, matrixSplitter P = Except.ok (Dinv, R) ∧
      Jacobi.forward Dinv R 0 x0 k = 0 := by
  refine ⟨(Matrix.diagonal fun i => P i i)⁻¹, P - Matrix.diagonal fun i => P i i,
    matrixSplitter_eq_ok P hnz, ?_⟩
  obtain ⟨m, rfl⟩ : ∃ m, k = m + 1 := ⟨k - 1, (Nat.succ_pred_eq_of_pos hk).symm⟩
  simp only [Jacobi.forward, residual_eq_zero_of_diagonal P hdiag,
    Matrix.zero_mulVec, sub_zero, Matrix.mulVec_zero]

/-- Witness for C8 at `P = [[2,0],[0,2]]`, `x0 = (1, 5)`, `k = 3`. -/
theorem pure_jacobi_diagonal_fixed_point_witness :
    ∃ Dinv R, matrixSplitter (!![2, 0; 0, 2] : Mat 2) = Except.ok (Dinv, R) ∧
      Jacobi.forward Dinv R 0 ![1, 5] 3 = 0 :=
  pure_jacobi_diagonal_fixed_point !![2, 0; 0, 2]
    (by intro i j hij; fin_cases i <;> fin_cases j <;> simp_all)
    (by intro i; fin_cases i <;> norm_num) ![1, 5] 3 (by norm_num)

/-- C4: the error curve produced by `plot_pure_jacobi` has one entry per step
count `i` in `[0, max_itr)`, and the entry at `i` is the Euclidean norm
`‖x_i − x*‖₂` with `x* = 0`, where `x_i` is the final iterate of an
independent fresh run of length `i` started from that run's own fresh draw
`draws i` (not a continuation of a single trajectory). -/
theorem plot_pure_jacobi_entry {n : ℕ} (Dinv R : Mat n) (q : Vec n)
    (draws : ℕ → Vec n) (max_itr i : ℕ) (h : i < max_itr) :
    (plot_pure_jacobi Dinv R q draws max_itr).length = max_itr ∧
    (plot_pure_jacobi Dinv R q draws max_itr).get? i =
      some (torch_norm (Jacobi.forward Dinv R q (draws i) i - 0)) := by
  constructor
  · simp [plot_pure_jacobi]
  · unfold plot_pure_jacobi
    rw [List.get?_map, List.get?_range h]
    simp

/-- Witness for C4 with `n = 1`, `max_itr = 3`, `i = 2`. -/
theorem plot_pure_jacobi_entry_witness :
    (plot_pure_jacobi (1 : Mat 1) 0 0 (fun j _ => (j : ℝ)) 3).length = 3 ∧
    (plot_pure_jacobi (1 : Mat 1) 0 0 (fun j _ => (j : ℝ)) 3).get? 2 =
      some (torch_norm (Jacobi.forward (1 : Mat 1) 0 0 (fun _ => (2 : ℝ)) 2 - 0)) :=
  plot_pure_jacobi_entry 1 0 0 (fun j _ => (j : ℝ)) 3 2 (by norm_num)

/-- C9: the StationaryIterator is deterministic: two runs from the same inputs
(same split matrices, right-hand side, strategy, initial iterate — the fixed
seed makes both runs draw the same initial vector — and step count) end with
identical final iterates. -/
theorem runsFrom_deterministic {n : ℕ} (Dinv R : Mat n) (q : Vec n)
    (s : RelaxationStrategy) (i : ℕ) (x0 : Vec n) (k : ℕ) (y1 y2 : Vec n)
    (h1 : RunsFrom Dinv R q s i x0 k y1) (h2 : RunsFrom Dinv R q s i x0 k y2) :
    y1 = y2 := by
  induction h1 generalizing y2 with
  | done i x =>
    cases h2
    rfl
  | step i x k y hs ih =>
    cases h2 with
    | step _ _ _ _ hs2 => exact ih _ hs2

/-- Witness for C9: a concrete one-step run, taken twice, ends at the same
iterate. -/
theorem runsFrom_deterministic_witness :
    spec_stationaryStep (1 : Mat 1) 0 0 RelaxationStrategy.none 0 (fun _ => 2) =
      spec_stationaryStep (1 : Mat 1) 0 0 RelaxationStrategy.none 0 (fun _ => 2) :=
  runsFrom_deterministic (1 : Mat 1) 0 0 RelaxationStrategy.none 0 (fun _ => 2) 1 _ _
    (RunsFrom.step 0 _ 0 _ (RunsFrom.done 1 _))
    (RunsFrom.step 0 _ 0 _ (RunsFrom.done 1 _))

/-- C10: with `num_itr = 0` every solver variant returns its fresh initial
iterate unchanged — for every choice of `Dinv`, `R` and `b`, so no
matrix–vector product influences the result — and the error curve's entry at
index 0 is the norm of the fresh random draw itself. -/
theorem zero_iterations_return_initial {n : ℕ} (Dinv R : Mat n) (b : Vec n)
    (omega lmin lmax : ℝ) (T : ℕ) (x0 : Vec n) (draws : ℕ → Vec n) (m : ℕ) :
    Jacobi.forward Dinv R b x0 0 = x0 ∧
    SOR_Jacobi.forward Dinv R b omega x0 0 = x0 ∧
    Chebychev_SOR_Jacobi.forward Dinv R b lmin lmax T x0 0 = x0 ∧
    (plot_pure_jacobi Dinv R b draws (m + 1)).get? 0 = some (torch_norm (draws 0)) := by
  refine ⟨rfl, rfl, rfl, ?_⟩
  unfold plot_pure_jacobi
  rw [List.get?_map, List.get?_range (Nat.succ_pos m)]
  rfl

/-- C7 counterexample: with `λ_min = −1 ≤ 0` (invalid bounds per the claim)
no failure occurs: `omega_opt` returns the ordinary value `2/(3 + (−1)) = 1`,
and the Chebyshev factor at step 0 with `T = 2` is the ordinary real
`1/(1 + √2)`.  No `InvalidSpectralBoundsError` path exists in the code. -/
theorem no_spectral_bounds_check_counterexample :
    omega_opt (-1) 3 = 1 ∧ chebyshevStepSchedule 0 2 (-1) 3 = 1 / (1 + Real.sqrt 2) := by
  constructor
  · norm_num [omega_opt]
  · have h4 : Real.pi * (2 * ((0 % 2 : ℕ) : ℝ) + 1) / (2 * ((2 : ℕ) : ℝ)) = Real.pi / 4 := by
      norm_num
    simp only [chebyshevStepSchedule, c_root, h4, Real.cos_pi_div_four]
    norm_num
    ring_nf

/-- C7 amended: the code performs no validation of the spectral bounds — even
when `λ_min ≤ 0` or `λ_max < λ_min` (with a non-zero sum, so that the Python
float division itself does not raise), the relaxation-factor computations just
return their formulas; no `InvalidSpectralBoundsError` exists. -/
theorem no_spectral_bounds_check (lmin lmax : ℝ) (k T : ℕ)
    (hbad : lmin ≤ 0 ∨ lmax < lmin) (hsum : lmin + lmax ≠ 0) :
    omega_opt lmin lmax = 2 / (lmin + lmax) ∧
    chebyshevStepSchedule k T lmin lmax = 1 / spec_c (k % T) T lmin lmax := by
  constructor
  · unfold omega_opt
    rw [add_comm]
  · rfl

/-- Witness for the amended C7 at `λ_min = −1`, `λ_max = 3`, `k = 5`, `T = 2`. -/
theorem no_spectral_bounds_check_witness :
    omega_opt (-1) 3 = 2 / ((-1) + 3) ∧
    chebyshevStepSchedule 5 2 (-1) 3 = 1 / spec_c (5 % 2) 2 (-1) 3 :=
  no_spectral_bounds_check (-1) 3 5 2 (Or.inl (by norm_num)) (by norm_num)

end Chebyshev
